import Mathlib

/-!
# Verification of the python-shell process-communication layer

A shallow embedding of `src/index.ts` (the `PythonShell` class): the line
framer (`recieveInternal`), the message codec (`format.text`, `send`), the
error parser (`parseError`) and the lifecycle controller
(`terminateIfNeeded`, the stream-end / exit handlers and `terminate`).

Strings are modelled as `List Char`; the platform line terminator (`os.EOL`)
is modelled as the single character `'\n'`.
-/

/-- Strings are lists of characters. -/
abbrev Str := List Char

/-- Coerce a Lean string literal into the model's string type. -/
def str (s : String) : Str := s.data

/-- The line terminator (`os.EOL`), modelled as a single newline character. -/
def eol : Char := '\n'

/-- The line terminator as a one-character string. -/
def eolStr : Str := [eol]

/-!
## JavaScript `String.split` on a single-character separator

`recieveInternal` and `parseError` split on `new RegExp(newline, 'g')`; with
the terminator modelled as one character this is an exact split on that
character. JS semantics: `''.split(c) = ['']`, the result always has
`(number of separators) + 1` pieces, and no piece contains the separator.
-/

/-- JS `s.split(c)` for a single-character separator `c`. -/
def jsSplit (c : Char) : Str → List Str
  | [] => [[]]
  | x :: xs =>
    if x = c then [] :: jsSplit c xs
    else
      match jsSplit c xs with
      | [] => [[x]]
      | r :: rs => (x :: r) :: rs

/-- Merge a carried-over fragment into the head piece of a split. -/
def glueHead (la : Str) : List Str → List Str
  | [] => [la]
  | b0 :: bs => (la ++ b0) :: bs

/-- Interleave the separator back between the pieces (JS `Array.join`). -/
def joinSep (c : Char) : List Str → Str
  | [] => []
  | [p] => p
  | p :: ps => p ++ c :: joinSep c ps

/-!
## The Line Framer: `recieveInternal` (src/index.ts, lines 345-367)

One call takes the buffered fragment `_remaining` and the incoming chunk,
and returns the new fragment together with the ordered list of complete
records handed to the parser and emitted. In the source the fragment lives
in the single field `this._remaining` of the session.
-/

/-- One call of `recieveInternal` on one chunk: split on the terminator; a
single piece is buffered; otherwise the last piece (`parts.pop()`) becomes
the new fragment, the old fragment is prepended to `parts[0]`, and the
remaining pieces are emitted in order. -/
def recieveInternal (remaining : Str) (data : Str) : Str × List Str :=
  let parts := jsSplit eol data
  if parts.length = 1 then
    (remaining ++ parts.headD [], [])
  else
    (parts.getLastD [], glueHead remaining parts.dropLast)

/-- Feed a sequence of chunks one call at a time, collecting every emitted
record in order. -/
def feedChunks (remaining : Str) (chunks : List Str) : Str × List Str :=
  chunks.foldl
    (fun acc ch =>
      let step := recieveInternal acc.1 ch
      (step.1, acc.2 ++ step.2))
    (remaining, [])

/-!
## The Message Codec (src/index.ts, lines 186-206, 318-323)

JavaScript values as the codec layer sees them: a string, a number, a
boolean, `null`, `undefined`, or some other object carried together with
its `toString()` representation.
-/

inductive JVal where
  | vstr (s : Str)
  | vnum (n : Int)
  | vbool (b : Bool)
  | vnull
  | vundef
  | vobj (rep : Str)
deriving DecidableEq

/-- JavaScript truthiness: `''`, `0`, `false`, `null`, `undefined` are falsy. -/
def jsFalsy : JVal → Bool
  | .vstr s => s.isEmpty
  | .vnum n => n == 0
  | .vbool b => !b
  | .vnull => true
  | .vundef => true
  | .vobj _ => false

/-- JavaScript `toString()` / string coercion of a value. -/
def jsToString : JVal → Str
  | .vstr s => s
  | .vnum n => str (toString n)
  | .vbool b => if b then str "true" else str "false"
  | .vnull => str "null"
  | .vundef => str "undefined"
  | .vobj rep => rep

namespace PythonShell

/-- `PythonShell.format.text` (src/index.ts, lines 188-192): falsy data maps
to `''`; non-string data is converted with `toString()`; strings pass
through. -/
def format.text (data : JVal) : Str :=
  if jsFalsy data then []
  else
    match data with
    | .vstr s => s
    | d => jsToString d

/-- `PythonShell.parse.text` (src/index.ts, lines 200-202): the identity. -/
def parse.text (data : Str) : Str := data

end PythonShell

/-- The session's configured mode. -/
inductive Mode where
  | text
  | json
  | binary
deriving DecidableEq

/-- `send` (src/index.ts, lines 318-323): the bytes written to the child's
stdin for one message. The formatter is `none` when unresolved (as in
binary mode, which has no built-in formatter); then the message itself is
written. In any non-binary mode one line terminator is appended. -/
def send (mode : Mode) (formatter : Option (JVal → Str)) (message : JVal) : Str :=
  let data : Str :=
    match formatter with
    | some f => f message
    | none => jsToString message
  if mode ≠ Mode.binary then data ++ eolStr else data

/-!
## The session's receive path (src/index.ts, lines 331-367)

`receive` (stdout data) and `receiveStderr` (stderr data) both call
`recieveInternal`, which reads and writes the session's single
`_remaining` field (line 79) whichever stream the chunk came from.
-/

/-- Which event a complete record is emitted as. -/
inductive EmitType where
  | message
  | stderrRecord
deriving DecidableEq

/-- The session state touched by the receive path: the single `_remaining`
buffer and the records emitted so far on each stream, after decoding. -/
structure RecvState where
  remaining : Str
  messages : List Str
  stderrRecords : List Str
deriving DecidableEq

/-- The session's receive state at construction: `_remaining` is undefined,
modelled as the empty fragment (`this._remaining || ''` makes the two
indistinguishable), and nothing has been emitted. -/
def initRecvState : RecvState :=
  { remaining := [], messages := [], stderrRecords := [] }

/-- One `recieveInternal` call on the session: chunks from both streams go
through the same `_remaining` buffer; only the emit target differs. -/
def sessionReceive (parser stderrParser : Str → Str) (st : RecvState)
    (emitType : EmitType) (data : Str) : RecvState :=
  let step := recieveInternal st.remaining data
  match emitType with
  | .message =>
    { st with
      remaining := step.1
      messages := st.messages ++ step.2.map parser }
  | .stderrRecord =>
    { st with
      remaining := step.1
      stderrRecords := st.stderrRecords ++ step.2.map stderrParser }

/-!
## The Error Parser: `parseError` (src/index.ts, lines 284-303)
-/

/-- JS whitespace as far as `String.trim` is concerned (the ASCII part;
the inputs in play are ASCII). -/
def isJsWhitespace (c : Char) : Bool :=
  c = ' ' || c = '\t' || c = '\n' || c = '\r' || c.toNat = 11 || c.toNat = 12

/-- JS `String.trim`: strip whitespace from both ends. -/
def jsTrim (s : Str) : Str :=
  ((s.dropWhile isJsWhitespace).reverse.dropWhile isJsWhitespace).reverse

/-- `PythonShellError` (src/index.ts, lines 52-55) plus the properties
`terminateIfNeeded` attaches with `extend` (lines 167-173). `stackAppend`
is the text appended to the error's `stack` diagnostic context beyond the
stack's initial value. -/
structure PythonShellError where
  message : Str
  traceback : Option Str := none
  stackAppend : Str := []
  executable : Option Str := none
  options : Option (List Str) := none
  script : Option Str := none
  args : Option (List Str) := none
  exitCode : Option Int := none
deriving DecidableEq

/-- `parseError` (src/index.ts, lines 284-303): stderr text starting with
the `Traceback` marker is split into lines of its trimmed form; the popped
last line becomes the message, the raw text becomes `traceback`, and the
remaining lines minus the first are joined onto the stack. Without the
marker the whole text is the message. -/
def parseError (data : Str) : PythonShellError :=
  if (str "Traceback").isPrefixOf data then
    let lines := jsSplit eol (jsTrim data)
    let exception := lines.getLastD []
    { message := exception
      traceback := some data
      stackAppend :=
        eolStr ++ str "    ----- Python Traceback -----" ++ eolStr ++ str "  " ++
          List.intercalate (eolStr ++ str "  ") (lines.dropLast.drop 1) }
  else
    { message := data }

/-!
## The Lifecycle Controller (src/index.ts, lines 122-183, 373-387)
-/

/-- The construction-time values `terminateIfNeeded` closes over, plus the
observation points: how many `error` listeners are attached and whether
`end(callback)` registered a completion callback. -/
structure Config where
  pythonPath : Str
  pythonOptions : List Str
  scriptPath : Str
  scriptArgs : List Str
  errorListeners : Nat
  hasEndCallback : Bool

/-- The lifecycle state of one session, together with the observable
notifications: how many times `close` fired, which errors were emitted,
and the arguments of every completion-callback invocation. -/
structure LState where
  stdoutHasEnded : Bool
  stderrHasEnded : Bool
  exitCode : Option Int
  exitSignal : Option Str
  errorData : Str
  terminated : Bool
  closeEvents : Nat
  errorEvents : List PythonShellError
  callbackCalls : List (Option PythonShellError × Option Int × Option Str)

/-- The lifecycle state right after construction (src/index.ts, line 122):
no stream has ended, no exit fact is recorded, nothing fired. -/
def initLState (errData : Str) : LState :=
  { stdoutHasEnded := false
    stderrHasEnded := false
    exitCode := none
    exitSignal := none
    errorData := errData
    terminated := false
    closeEvents := 0
    errorEvents := []
    callbackCalls := [] }

/-- The error construction inside `terminateIfNeeded` (src/index.ts, lines
160-173): only a truthy (non-null, non-zero) exit code builds an error;
non-empty accumulated stderr goes through `parseError`, otherwise a generic
message is used; then executable, options, script, args and exit code are
attached. -/
def buildTerminalError (cfg : Config) (st : LState) : Option PythonShellError :=
  match st.exitCode with
  | none => none
  | some c =>
    if c = 0 then none
    else
      let base :=
        if st.errorData.isEmpty then
          { message := str "process exited with code " ++ str (toString c) :
            PythonShellError }
        else parseError st.errorData
      some { base with
        executable := some cfg.pythonPath
        options := if cfg.pythonOptions.isEmpty then none else some cfg.pythonOptions
        script := some cfg.scriptPath
        args := if cfg.scriptArgs.isEmpty then none else some cfg.scriptArgs
        exitCode := some c }

/-- `terminateIfNeeded` (src/index.ts, lines 157-183): return unchanged
unless both streams ended and an exit code or signal is recorded; otherwise
build the error (if any), emit it when an `error` listener exists or no
completion callback was registered, mark the session terminated, fire
`close`, and invoke the completion callback if registered. -/
def terminateIfNeeded (cfg : Config) (st : LState) : LState :=
  if !st.stderrHasEnded || !st.stdoutHasEnded ||
      (st.exitCode.isNone && st.exitSignal.isNone) then st
  else
    let errOpt := buildTerminalError cfg st
    let emitted :=
      match errOpt with
      | some e => if cfg.errorListeners != 0 || !cfg.hasEndCallback then [e] else []
      | none => []
    { st with
      terminated := true
      errorEvents := st.errorEvents ++ emitted
      closeEvents := st.closeEvents + 1
      callbackCalls := st.callbackCalls ++
        (if cfg.hasEndCallback then [(errOpt, st.exitCode, st.exitSignal)] else []) }

/-- The asynchronous notifications a session reacts to, plus an explicit
`terminate()` call. -/
inductive SessionEv where
  | stderrData (d : Str)
  | stderrEnd
  | stdoutEnd
  | exited (code : Option Int) (signal : Option Str)
  | terminateCall
deriving DecidableEq

/-- The handlers installed by the constructor (src/index.ts, lines 136-155)
and the `terminate` method (lines 383-387): stderr data accumulates into
`errorData`; each of the three completion signals records its fact and runs
`terminateIfNeeded`; `terminate()` kills the process and sets the
terminated flag, firing nothing itself. -/
def handleEv (cfg : Config) (st : LState) : SessionEv → LState
  | .stderrData d => { st with errorData := st.errorData ++ d }
  | .stderrEnd => terminateIfNeeded cfg { st with stderrHasEnded := true }
  | .stdoutEnd => terminateIfNeeded cfg { st with stdoutHasEnded := true }
  | .exited c s => terminateIfNeeded cfg { st with exitCode := c, exitSignal := s }
  | .terminateCall => { st with terminated := true }

/-- Run a sequence of notifications from a given state. -/
def runEvents (cfg : Config) (st : LState) (evs : List SessionEv) : LState :=
  evs.foldl (handleEv cfg) st

/-- The six arrival orders of the three completion signals. -/
def orders3 (c : Option Int) (s : Option Str) : List (List SessionEv) :=
  [[.stdoutEnd, .stderrEnd, .exited c s],
    [.stdoutEnd, .exited c s, .stderrEnd],
    [.stderrEnd, .stdoutEnd, .exited c s],
    [.stderrEnd, .exited c s, .stdoutEnd],
    [.exited c s, .stdoutEnd, .stderrEnd],
    [.exited c s, .stderrEnd, .stdoutEnd]]

/-- `readyState` is the lifecycle state in which all three completion facts
hold and nothing has been observed yet: both streams ended and the exit
handler has stored `code`/`signal`. -/
def readyState (errD : Str) (c : Option Int) (s : Option Str) : LState :=
  { initLState errD with
    stdoutHasEnded := true
    stderrHasEnded := true
    exitCode := c
    exitSignal := s }

/-- Modelled from the spec's words in §4.4 for claim C3: "the remaining
lines (excluding the first, which is the marker line itself) are joined",
using the same separator the source joins with. The claim asserts this
value is attached as the error's traceback/detail field. -/
def specDetailField (data : Str) : Str :=
  List.intercalate (eolStr ++ str "  ") ((jsSplit eol (jsTrim data)).dropLast.drop 1)

/-- The spec §8 traceback example, as raw accumulated stderr text. -/
def tb0 : Str :=
  str "Traceback (most recent call last):\n  File \"x.py\", line 1\nValueError: bad\n"

/-- A concrete construction-time configuration for witnesses. -/
def cfg0 : Config :=
  { pythonPath := str "python3"
    pythonOptions := []
    scriptPath := str "script.py"
    scriptArgs := []
    errorListeners := 0
    hasEndCallback := true }

/-!
## Properties
-/

theorem jsSplit_ne_nil (c : Char) (l : Str) : jsSplit c l ≠ [] := by
  induction l with
  | nil => simp [jsSplit]
  | cons x xs ih =>
    simp only [jsSplit]
    split
    · simp
    · split
      · simp
      · simp

/-- The split of a separator-free string is the single piece `[l]`. -/
theorem jsSplit_of_not_mem (c : Char) (l : Str) (h : c ∉ l) :
    jsSplit c l = [l] := by
  induction l with
  | nil => rfl
  | cons x xs ih =>
    simp only [List.mem_cons, not_or] at h
    have hx : ¬ x = c := fun hh => h.1 hh.symm
    simp only [jsSplit, if_neg hx, ih h.2]

/-- Conversely, a singleton split means the string is separator-free. -/
theorem not_mem_of_jsSplit_singleton (c : Char) (l : Str) (p : Str)
    (h : jsSplit c l = [p]) : c ∉ l := by
  induction l generalizing p with
  | nil => simp
  | cons x xs ih =>
    rcases hr : jsSplit c xs with _ | ⟨r, rs⟩
    · exact absurd hr (jsSplit_ne_nil c xs)
    · simp only [jsSplit, hr] at h
      by_cases hx : x = c
      · rw [if_pos hx] at h
        simp at h
      · rw [if_neg hx] at h
        obtain ⟨h1, h2⟩ := List.cons_eq_cons.mp h
        subst h2
        simp only [List.mem_cons, not_or]
        exact ⟨fun hc => hx hc.symm, ih r hr⟩

theorem getLast?_getD_cons {α : Type _} (a : α) (l : List α) (d : α) :
    (a :: l).getLast?.getD d = l.getLastD a := by
  rw [← List.getLastD_eq_getLast?, List.getLastD_cons]

/-- Splitting a concatenation: the last piece of `a`'s split fuses with the
first piece of `b`'s split. -/
theorem jsSplit_append (c : Char) (a b : Str) :
    jsSplit c (a ++ b) =
      (jsSplit c a).dropLast ++ glueHead ((jsSplit c a).getLastD []) (jsSplit c b) := by
  induction a with
  | nil =>
    rcases hb : jsSplit c b with _ | ⟨b0, bs⟩
    · exact absurd hb (jsSplit_ne_nil c b)
    · simp [jsSplit, glueHead, hb]
  | cons x xs ih =>
    rcases hs : jsSplit c xs with _ | ⟨s0, ss⟩
    · exact absurd hs (jsSplit_ne_nil c xs)
    · rw [hs] at ih
      by_cases hx : x = c
      · simp only [List.cons_append, jsSplit, if_pos hx, hs, List.dropLast_cons₂,
          List.getLastD_cons]
        simpa [getLast?_getD_cons] using ih
      · rcases ss with _ | ⟨s1, ss'⟩
        · rcases hb : jsSplit c b with _ | ⟨b0, bs⟩
          · exact absurd hb (jsSplit_ne_nil c b)
          · have ih' : jsSplit c (xs ++ b) = (s0 ++ b0) :: bs := by
              simpa [glueHead, hb] using ih
            simp [List.cons_append, jsSplit, if_neg hx, hs, ih', glueHead, hb,
              List.getLastD_cons]
        · have ih' : jsSplit c (xs ++ b) =
              s0 :: ((s1 :: ss').dropLast ++
                glueHead ((s1 :: ss').getLastD s0) (jsSplit c b)) := by
            simpa [getLast?_getD_cons, List.getLastD_cons] using ih
          simp [List.cons_append, jsSplit, if_neg hx, hs, ih', glueHead,
            getLast?_getD_cons, List.getLastD_cons]

/-- No piece of a split contains the separator. -/
theorem not_mem_of_mem_jsSplit (c : Char) (l : Str) (p : Str)
    (hp : p ∈ jsSplit c l) : c ∉ p := by
  induction l generalizing p with
  | nil =>
    simp only [jsSplit, List.mem_singleton] at hp
    simp [hp]
  | cons x xs ih =>
    by_cases hx : x = c
    · simp only [jsSplit, if_pos hx, List.mem_cons] at hp
      rcases hp with rfl | hp
      · simp
      · exact ih p hp
    · rcases hr : jsSplit c xs with _ | ⟨r, rs⟩
      · exact absurd hr (jsSplit_ne_nil c xs)
      · simp only [jsSplit, if_neg hx, hr, List.mem_cons] at hp
        rcases hp with rfl | hp
        · have hcr : c ∉ r := ih r (by simp [hr])
          simp only [List.mem_cons, not_or]
          exact ⟨fun hh => hx hh.symm, hcr⟩
        · exact ih p (by simp [hr, hp])

/-- A split has one piece per separator occurrence, plus one. -/
theorem length_jsSplit (c : Char) (l : Str) :
    (jsSplit c l).length = l.count c + 1 := by
  induction l with
  | nil => simp [jsSplit]
  | cons x xs ih =>
    by_cases hx : x = c
    · simp [jsSplit, if_pos hx, ih, List.count_cons, hx]
    · rcases hr : jsSplit c xs with _ | ⟨r, rs⟩
      · exact absurd hr (jsSplit_ne_nil c xs)
      · rw [hr] at ih
        simp only [jsSplit, if_neg hx, hr]
        simp only [List.length_cons] at ih ⊢
        rw [List.count_cons]
        simp [hx, ih]

/-- Joining the split back with the separator recovers the string. -/
theorem joinSep_jsSplit (c : Char) (l : Str) : joinSep c (jsSplit c l) = l := by
  induction l with
  | nil => rfl
  | cons x xs ih =>
    rcases hr : jsSplit c xs with _ | ⟨r, rs⟩
    · exact absurd hr (jsSplit_ne_nil c xs)
    · rw [hr] at ih
      by_cases hx : x = c
      · simp only [jsSplit, if_pos hx, hr]
        rcases rs with _ | ⟨r1, rs'⟩
        · simpa [joinSep, hx] using ih
        · simpa [joinSep, hx] using ih
      · simp only [jsSplit, if_neg hx, hr]
        rcases rs with _ | ⟨r1, rs'⟩
        · simpa [joinSep] using congrArg (x :: ·) ih
        · simpa [joinSep] using congrArg (x :: ·) ih

/-- `joinSep` over a list with its last element exposed: every piece but the
last is followed by one separator. -/
theorem joinSep_concat (c : Char) (ps : List Str) (la : Str) :
    joinSep c (ps ++ [la]) = (ps.map (· ++ [c])).flatten ++ la := by
  induction ps with
  | nil => rfl
  | cons p ps' ih =>
    rcases ps' with _ | ⟨q, qs⟩
    · simp [joinSep]
    · show p ++ c :: joinSep c (q :: qs ++ [la]) = _
      rw [ih]
      simp

theorem getLast?_cons_or {α : Type _} (a : α) (l : List α) (o : Option α) :
    ((a :: l).getLast?.or o) = (a :: l).getLast? := by
  rcases h : (a :: l).getLast? with _ | v
  · have : (a :: l).getLast?.isSome := List.getLast?_isSome.mpr (by simp)
    rw [h] at this
    simp at this
  · simp

/-- Two consecutive `recieveInternal` calls behave like one call on the
concatenated chunk: the fragment agrees and the emissions concatenate. -/
theorem recieveInternal_append (r a b : Str) :
    recieveInternal r (a ++ b) =
      ((recieveInternal (recieveInternal r a).1 b).1,
        (recieveInternal r a).2 ++ (recieveInternal (recieveInternal r a).1 b).2) := by
  rcases hs : jsSplit eol a with _ | ⟨s0, ss⟩
  · exact absurd hs (jsSplit_ne_nil eol a)
  · rcases ht : jsSplit eol b with _ | ⟨t0, ts⟩
    · exact absurd ht (jsSplit_ne_nil eol b)
    · have hu := jsSplit_append eol a b
      rw [hs, ht] at hu
      rcases ss with _ | ⟨s1, ss'⟩
      · -- `a` is terminator-free: `jsSplit eol a = [a']` with `a' = a`
        have ha : s0 = a := by
          have := joinSep_jsSplit eol a
          rw [hs] at this
          simpa [joinSep] using this
        subst ha
        rcases ts with _ | ⟨t1, ts'⟩
        · -- `b` terminator-free as well: everything is buffered
          simp [recieveInternal, hs, ht, hu, glueHead]
        · -- `b` completes at least one record
          simp [recieveInternal, hs, ht, hu, glueHead, List.getLastD_cons,
            getLast?_getD_cons]
      · rcases ts with _ | ⟨t1, ts'⟩
        · -- `a` completes records, `b` is terminator-free
          simp only [recieveInternal, hs, ht, hu] at *
          simp [glueHead, List.getLastD_cons, getLast?_getD_cons,
            List.dropLast_append_cons, List.dropLast_cons_of_ne_nil,
            List.dropLast_concat]
        · -- both chunks complete records
          simp only [recieveInternal, hs, ht, hu] at *
          simp [glueHead, List.getLastD_cons, getLast?_getD_cons,
            List.dropLast_append_cons, List.dropLast_cons_of_ne_nil,
            List.dropLast_cons₂, getLast?_cons_or]

/-- `feedChunks` with an exposed output accumulator. -/
theorem feedChunks_foldl_acc (chunks : List Str) (r : Str) (out : List Str) :
    chunks.foldl
      (fun acc ch =>
        let step := recieveInternal acc.1 ch
        (step.1, acc.2 ++ step.2))
      (r, out)
      = ((feedChunks r chunks).1, out ++ (feedChunks r chunks).2) := by
  induction chunks generalizing r out with
  | nil => simp [feedChunks]
  | cons ch chs ih =>
    simp only [feedChunks, List.foldl_cons, List.nil_append] at ih ⊢
    rw [ih ((recieveInternal r ch).1) (out ++ (recieveInternal r ch).2),
      ih ((recieveInternal r ch).1) ((recieveInternal r ch).2)]
    simp

/-- Unfold one chunk of `feedChunks`. -/
theorem feedChunks_cons (r ch : Str) (chs : List Str) :
    feedChunks r (ch :: chs) =
      ((feedChunks (recieveInternal r ch).1 chs).1,
        (recieveInternal r ch).2 ++ (feedChunks (recieveInternal r ch).1 chs).2) := by
  have h := feedChunks_foldl_acc chs (recieveInternal r ch).1 (recieveInternal r ch).2
  simp only [feedChunks, List.foldl_cons, List.nil_append] at h ⊢
  exact h

/-- Feeding the chunks one by one emits exactly what one call on the
concatenated text emits, and leaves the same buffered fragment. -/
theorem feedChunks_eq_single (r : Str) (chunks : List Str) :
    feedChunks r chunks = recieveInternal r chunks.flatten := by
  induction chunks generalizing r with
  | nil => simp [feedChunks, recieveInternal, jsSplit]
  | cons ch chs ih =>
    rw [feedChunks_cons, ih ((recieveInternal r ch).1), List.flatten_cons,
      recieveInternal_append]

/-- A nonempty list equals its `dropLast` plus its `getLastD`. -/
theorem dropLast_concat_getLastD {α : Type _} (l : List α) (d : α) (h : l ≠ []) :
    l.dropLast ++ [l.getLastD d] = l := by
  induction l generalizing d with
  | nil => exact absurd rfl h
  | cons x xs ih =>
    rcases xs with _ | ⟨y, ys⟩
    · rfl
    · rw [List.dropLast_cons₂, List.getLastD_cons, List.cons_append,
        ih x (by simp)]

/-- Prepending a fragment to the head piece prepends it to the flattened
emission. -/
theorem map_flatten_glueHead (r : Str) (ps : List Str) (h : ps ≠ []) :
    ((glueHead r ps).map (· ++ eolStr)).flatten = r ++ (ps.map (· ++ eolStr)).flatten := by
  cases ps with
  | nil => exact absurd rfl h
  | cons a t => simp [glueHead]

/-- C2 (Framer chunk-invariance): for every text and every way of cutting
it into ordered chunks, feeding the chunks one `recieveInternal` call at a
time emits exactly the record sequence of delivering the whole text as a
single chunk (and leaves the same buffered fragment). -/
theorem C2_framer_chunk_invariance (chunks : List Str) :
    feedChunks [] chunks = feedChunks [] [chunks.flatten] := by
  rw [feedChunks_eq_single, feedChunks_eq_single]
  simp

/-- C6 (Framer step): a terminator-free chunk is appended to the fragment
and emits nothing; otherwise the fragment is prepended to the first piece,
the last piece becomes the new fragment, and all pieces but the last are
emitted in order. The new fragment never contains a terminator (the buffer
never holds a complete record), every emitted record is terminator-free,
and the emitted records, each closed by its terminator, followed by the
fragment, reconstruct the input — so a record is only emitted once its
terminator has been observed. -/
theorem C6_framer_step (r data : Str) (hr : eol ∉ r) :
    (data.count eol = 0 → recieveInternal r data = (r ++ data, [])) ∧
    (data.count eol ≠ 0 →
      recieveInternal r data =
        ((jsSplit eol data).getLastD [], glueHead r (jsSplit eol data).dropLast)) ∧
    eol ∉ (recieveInternal r data).1 ∧
    (∀ q ∈ (recieveInternal r data).2, eol ∉ q) ∧
    ((recieveInternal r data).2.map (· ++ eolStr)).flatten ++ (recieveInternal r data).1
      = r ++ data := by
  by_cases hc : data.count eol = 0
  · have hnm : eol ∉ data := List.count_eq_zero.mp hc
    have hsplit : jsSplit eol data = [data] := jsSplit_of_not_mem eol data hnm
    have hri : recieveInternal r data = (r ++ data, []) := by
      simp [recieveInternal, hsplit]
    refine ⟨fun _ => hri, fun hne => absurd hc hne, ?_, ?_, ?_⟩
    · rw [hri]
      simp only [List.mem_append, not_or]
      exact ⟨hr, hnm⟩
    · rw [hri]
      simp
    · rw [hri]
      simp
  · rcases hsp : jsSplit eol data with _ | ⟨p0, ps⟩
    · exact absurd hsp (jsSplit_ne_nil eol data)
    · rcases ps with _ | ⟨p1, ps'⟩
      · have : data.count eol = 0 := by
          have := length_jsSplit eol data
          rw [hsp] at this
          simpa using this.symm
        exact absurd this hc
      · have hri : recieveInternal r data =
            ((p0 :: p1 :: ps').getLastD [], glueHead r (p0 :: p1 :: ps').dropLast) := by
          simp [recieveInternal, hsp]
        refine ⟨fun h0 => absurd h0 hc, fun _ => hri, ?_, ?_, ?_⟩
        · rw [hri]
          have hmem := List.getLastD_mem_cons (p0 :: p1 :: ps') ([] : Str)
          rcases List.mem_cons.mp hmem with h | h
          · rw [h]
            simp
          · refine not_mem_of_mem_jsSplit eol data _ ?_
            rw [hsp]
            exact h
        · rw [hri]
          intro q hq
          simp only [List.dropLast_cons₂] at hq
          rcases hq' : (p1 :: ps').dropLast with _ | ⟨d0, ds⟩
          · rw [hq'] at hq
            simp only [glueHead, List.mem_singleton] at hq
            subst hq
            simp only [List.mem_append, not_or]
            exact ⟨hr, not_mem_of_mem_jsSplit eol data p0 (by simp [hsp])⟩
          · rw [hq'] at hq
            simp only [glueHead, List.mem_cons] at hq
            rcases hq with rfl | hq
            · simp only [List.mem_append, not_or]
              exact ⟨hr, not_mem_of_mem_jsSplit eol data p0 (by simp [hsp])⟩
            · have hqm : q ∈ jsSplit eol data := by
                rw [hsp]
                have : q ∈ (p1 :: ps').dropLast := by
                  rw [hq']
                  simp [hq]
                exact List.mem_cons_of_mem p0 (List.mem_of_mem_dropLast this)
              exact not_mem_of_mem_jsSplit eol data q hqm
        · rw [hri]
          have hjoin : joinSep eol (jsSplit eol data) = data := joinSep_jsSplit eol data
          have hdecomp : (jsSplit eol data).dropLast ++ [(jsSplit eol data).getLastD []]
              = jsSplit eol data := dropLast_concat_getLastD _ _ (jsSplit_ne_nil eol data)
          have hjc := joinSep_concat eol (jsSplit eol data).dropLast
            ((jsSplit eol data).getLastD [])
          rw [hdecomp, hjoin] at hjc
          rw [hsp] at hjc
          simp only [List.dropLast_cons₂] at hjc ⊢
          rw [map_flatten_glueHead r (p0 :: (p1 :: ps').dropLast) (by simp), hjc]
          simp [eolStr]

/-- Witness for C6 at a concrete fragment and chunk. -/
theorem C6_framer_step_witness :
    eol ∉ str "x" ∧
    recieveInternal (str "x") (str "a\nb") = (str "b", [str "xa"]) := by
  have h := C6_framer_step (str "x") (str "a\nb") (by decide)
  refine ⟨by decide, ?_⟩
  have h2 := h.2.1 (by decide)
  rw [h2]
  decide

/-- C7 is refuted by the code: the framing buffer (`_remaining`) is a
single field shared by both streams. A terminator-free stdout chunk `ab`
followed by a stderr chunk `cd<EOL>` makes the stderr stream emit the
record `abcd`, which contains the stdout fragment. -/
theorem C7_shared_buffer_across_streams :
    (sessionReceive PythonShell.parse.text PythonShell.parse.text
        (sessionReceive PythonShell.parse.text PythonShell.parse.text initRecvState
          EmitType.message (str "ab"))
        EmitType.stderrRecord (str "cd\n")).stderrRecords = [str "abcd"] ∧
    (sessionReceive PythonShell.parse.text PythonShell.parse.text
        (sessionReceive PythonShell.parse.text PythonShell.parse.text initRecvState
          EmitType.message (str "ab"))
        EmitType.stderrRecord (str "cd\n")).messages = [] := by
  decide

/-- C3 as stated is false on the code: `parseError` attaches the full raw
stderr text as the `traceback` field, not the joined remaining lines. At
the spec's own §8 example the two differ (the raw text starts with the
marker line, the joined remaining lines do not). -/
theorem C3_counterexample :
    (parseError tb0).traceback = some tb0 ∧
    specDetailField tb0 =
      str "  File \"x.py\", line 1" ∧
    (parseError tb0).traceback ≠ some (specDetailField tb0) := by
  refine ⟨rfl, by decide, ?_⟩
  intro h
  have h2 : tb0 = specDetailField tb0 := Option.some.inj h
  exact absurd h2 (by decide)

/-- C3 amended: for a non-empty stderr text beginning with `Traceback`, the
message is the last line of the trimmed text, the traceback field is the
full raw text, and the remaining lines excluding the marker line are joined
and appended to the error's diagnostic context (`stack`); without the
marker, the whole text is the message and no traceback is attached. -/
theorem C3_traceback_extraction (data : Str) :
    ((str "Traceback").isPrefixOf data = true →
      (parseError data).message = (jsSplit eol (jsTrim data)).getLastD [] ∧
      (parseError data).traceback = some data ∧
      (parseError data).stackAppend =
        eolStr ++ str "    ----- Python Traceback -----" ++ eolStr ++ str "  " ++
          specDetailField data) ∧
    ((str "Traceback").isPrefixOf data = false →
      (parseError data).message = data ∧
      (parseError data).traceback = none ∧
      (parseError data).stackAppend = []) := by
  constructor <;> intro h
  · rw [parseError, if_pos h]
    exact ⟨rfl, rfl, rfl⟩
  · rw [parseError, if_neg (by rw [h]; exact Bool.false_ne_true)]
    exact ⟨rfl, rfl, rfl⟩

/-- Witness for the amended C3 at the spec's §8 example. -/
theorem C3_traceback_extraction_witness :
    (parseError tb0).message = str "ValueError: bad" ∧
    (parseError tb0).traceback = some tb0 := by
  obtain ⟨h1, h2, h3⟩ := (C3_traceback_extraction tb0).1 (by decide)
  refine ⟨?_, h2⟩
  rw [h1]
  decide

/-- C8 (send): the message runs through the configured formatter; in any
non-binary mode exactly one line terminator is appended and nothing else;
in binary mode nothing is appended. In text mode `send("hello")` writes
exactly `hello` followed by one terminator. -/
theorem C8_send_framing :
    (∀ f msg, send Mode.text (some f) msg = f msg ++ eolStr) ∧
    (∀ f msg, send Mode.json (some f) msg = f msg ++ eolStr) ∧
    (∀ f msg, send Mode.binary (some f) msg = f msg) ∧
    send Mode.text (some PythonShell.format.text) (JVal.vstr (str "hello"))
      = str "hello" ++ eolStr := by
  refine ⟨fun f msg => by simp [send], fun f msg => by simp [send],
    fun f msg => by simp [send], ?_⟩
  decide

/-- C9 as stated is false on the code: `format.text` first tests JS
truthiness, so the falsy non-string `0` maps to the empty string although
its string representation is `0`. -/
theorem C9_counterexample :
    PythonShell.format.text (JVal.vnum 0) = [] ∧
    jsToString (JVal.vnum 0) = str "0" ∧
    PythonShell.format.text (JVal.vnum 0) ≠ jsToString (JVal.vnum 0) := by
  decide

/-- C9 amended: the text formatter is the identity on every string; truthy
non-string values are converted via their string representation; falsy
values (including the falsy non-strings `0`, `false`, `null`, `undefined`)
map to the empty string. -/
theorem C9_text_formatter (v : JVal) :
    (∀ s, PythonShell.format.text (JVal.vstr s) = s) ∧
    (jsFalsy v = false → PythonShell.format.text v = jsToString v) ∧
    (jsFalsy v = true → PythonShell.format.text v = []) := by
  refine ⟨fun s => ?_, fun hv => ?_, fun hv => ?_⟩
  · cases s with
    | nil => rfl
    | cons a t => rfl
  · cases v <;> simp_all [PythonShell.format.text, jsToString, jsFalsy]
  · simp [PythonShell.format.text, hv]

/-- Witness for the amended C9. -/
theorem C9_text_formatter_witness :
    PythonShell.format.text (JVal.vstr (str "hi")) = str "hi" ∧
    PythonShell.format.text (JVal.vnum 7) = str "7" ∧
    PythonShell.format.text JVal.vnull = [] := by
  refine ⟨(C9_text_formatter JVal.vnull).1 (str "hi"), ?_, ?_⟩
  · have h := (C9_text_formatter (JVal.vnum 7)).2.1 (by decide)
    rw [h]
    decide
  · exact (C9_text_formatter JVal.vnull).2.2 (by decide)

/-- C1 (terminal convergence): `terminateIfNeeded` performs no transition
while any of the three completion facts is missing, and for each of the six
arrival orders of stdout-end, stderr-end and exit (with an exit code or
signal recorded), `close` has fired zero times after any proper prefix and
exactly once after all three. -/
theorem C1_terminal_convergence (cfg : Config) (errD : Str) (c : Option Int)
    (s : Option Str) (hcs : c.isSome = true ∨ s.isSome = true) :
    (∀ st : LState, st.stderrHasEnded = false ∨ st.stdoutHasEnded = false ∨
        (st.exitCode = none ∧ st.exitSignal = none) →
      terminateIfNeeded cfg st = st) ∧
    (∀ ord ∈ orders3 c s,
      (runEvents cfg (initLState errD) (ord.take 1)).closeEvents = 0 ∧
      (runEvents cfg (initLState errD) (ord.take 2)).closeEvents = 0 ∧
      (runEvents cfg (initLState errD) (ord.take 1)).terminated = false ∧
      (runEvents cfg (initLState errD) (ord.take 2)).terminated = false ∧
      (runEvents cfg (initLState errD) ord).closeEvents = 1) := by
  constructor
  · intro st h
    rcases h with h | h | ⟨h1, h2⟩
    · simp [terminateIfNeeded, h]
    · simp [terminateIfNeeded, h]
    · simp [terminateIfNeeded, h1, h2]
  · intro ord hord
    rcases c with _ | cv <;> rcases s with _ | sv
    · simp at hcs
    all_goals
      simp only [orders3, List.mem_cons, List.not_mem_nil, or_false] at hord
    all_goals
      rcases hord with rfl | rfl | rfl | rfl | rfl | rfl <;>
        simp [runEvents, handleEv, terminateIfNeeded, initLState]

/-- Witness for C1: one concrete arrival order fires `close` exactly once. -/
theorem C1_terminal_convergence_witness :
    (runEvents cfg0 (initLState [])
      [SessionEv.stdoutEnd, SessionEv.stderrEnd, SessionEv.exited (some 0) none]
    ).closeEvents = 1 := by
  have h := C1_terminal_convergence cfg0 [] (some 0) none (Or.inl (by decide))
  exact (h.2 _ (by simp [orders3])).2.2.2.2

/-- C5 (no double-termination): for every arrival order of the three
completion signals, a `terminate()` call after them (the process already
exited naturally) or before them (natural exit after `terminate()`) still
yields exactly one `close` event and at most one completion-callback
invocation. -/
theorem C5_no_double_termination (cfg : Config) (errD : Str) (c : Option Int)
    (s : Option Str) (hcs : c.isSome = true ∨ s.isSome = true) :
    ∀ ord ∈ orders3 c s,
      ((runEvents cfg (initLState errD) (ord ++ [SessionEv.terminateCall])).closeEvents
          = 1 ∧
        (runEvents cfg (initLState errD)
          (ord ++ [SessionEv.terminateCall])).callbackCalls.length ≤ 1) ∧
      ((runEvents cfg (initLState errD) (SessionEv.terminateCall :: ord)).closeEvents
          = 1 ∧
        (runEvents cfg (initLState errD)
          (SessionEv.terminateCall :: ord)).callbackCalls.length ≤ 1) := by
  intro ord hord
  rcases c with _ | cv <;> rcases s with _ | sv
  · simp at hcs
  all_goals
    simp only [orders3, List.mem_cons, List.not_mem_nil, or_false] at hord
  all_goals
    rcases hord with rfl | rfl | rfl | rfl | rfl | rfl <;>
      cases hcb : cfg.hasEndCallback <;>
        simp [runEvents, handleEv, terminateIfNeeded, initLState, hcb]

/-- Witness for C5 at a concrete order and a `terminate()` call after it. -/
theorem C5_no_double_termination_witness :
    (runEvents cfg0 (initLState [])
      [SessionEv.stdoutEnd, SessionEv.stderrEnd, SessionEv.exited (some 0) none,
        SessionEv.terminateCall]).closeEvents = 1 := by
  have h := C5_no_double_termination cfg0 [] (some 0) none (Or.inl (by decide))
  exact (h [SessionEv.stdoutEnd, SessionEv.stderrEnd, SessionEv.exited (some 0) none]
    (by simp [orders3])).1.1

/-- C4 (abnormal-exit error): at the terminal transition an error is built
exactly when the recorded exit code is present and non-zero — via the error
parser when accumulated stderr is non-empty, as a generic "process exited
with code N" error otherwise — carrying the executable path, the configured
options and arguments, and the exit code; it is emitted as an `error` event
exactly when an `error` listener exists or no completion callback was
registered, and it is also handed to the completion callback. -/
theorem C4_abnormal_exit_error (cfg : Config) (errD : Str) (c : Int)
    (s : Option Str) (hc : c ≠ 0) :
    (∀ s', buildTerminalError cfg (readyState errD (some 0) s') = none) ∧
    (∀ s', buildTerminalError cfg (readyState errD none s') = none) ∧
    ∃ e : PythonShellError,
      buildTerminalError cfg (readyState errD (some c) s) = some e ∧
      (errD = [] →
        e.message = str "process exited with code " ++ str (toString c) ∧
        e.traceback = none) ∧
      (errD ≠ [] →
        e.message = (parseError errD).message ∧
        e.traceback = (parseError errD).traceback ∧
        e.stackAppend = (parseError errD).stackAppend) ∧
      e.executable = some cfg.pythonPath ∧
      e.script = some cfg.scriptPath ∧
      e.options = (if cfg.pythonOptions.isEmpty then none else some cfg.pythonOptions) ∧
      e.args = (if cfg.scriptArgs.isEmpty then none else some cfg.scriptArgs) ∧
      e.exitCode = some c ∧
      (terminateIfNeeded cfg (readyState errD (some c) s)).errorEvents =
        (if cfg.errorListeners != 0 || !cfg.hasEndCallback then [e] else []) ∧
      (terminateIfNeeded cfg (readyState errD (some c) s)).callbackCalls =
        (if cfg.hasEndCallback then [(some e, some c, s)] else []) ∧
      (terminateIfNeeded cfg (readyState errD (some c) s)).closeEvents = 1 := by
  refine ⟨fun s' => by simp [buildTerminalError, readyState, initLState],
    fun s' => by simp [buildTerminalError, readyState, initLState], ?_⟩
  have hb : buildTerminalError cfg (readyState errD (some c) s) =
      some { (if errD.isEmpty then
            { message := str "process exited with code " ++ str (toString c) :
              PythonShellError }
          else parseError errD) with
        executable := some cfg.pythonPath
        options := if cfg.pythonOptions.isEmpty then none else some cfg.pythonOptions
        script := some cfg.scriptPath
        args := if cfg.scriptArgs.isEmpty then none else some cfg.scriptArgs
        exitCode := some c } := by
    simp [buildTerminalError, readyState, initLState, hc]
  refine ⟨_, hb, ?_, ?_, by simp, by simp, by simp, by simp, by simp, ?_, ?_, ?_⟩
  · intro h0
    have : errD.isEmpty = true := by simp [h0]
    simp [this]
  · intro h0
    have : errD.isEmpty = false := by simpa using h0
    simp [this]
  · simp only [readyState, initLState] at hb
    simp [terminateIfNeeded, readyState, initLState, hb]
  · simp only [readyState, initLState] at hb
    simp [terminateIfNeeded, readyState, initLState, hb]
  · simp [terminateIfNeeded, readyState, initLState]

/-- Witness for C4 at a concrete non-zero exit with non-empty stderr. -/
theorem C4_abnormal_exit_error_witness :
    (terminateIfNeeded cfg0 (readyState (str "boom") (some 2) none)).closeEvents
      = 1 := by
  obtain ⟨_, _, e, hb, h1, h2, h3, h4, h5, h6, h7, h8, h9, h10⟩ :=
    C4_abnormal_exit_error cfg0 (str "boom") 2 none (by decide)
  exact h10

/-- C10 (signal exit): when the process dies from a signal (exit code null,
signal non-null), no error is built even with non-empty accumulated stderr;
`close` still fires and a registered completion callback receives an
undefined error, the null exit code, and the signal. -/
theorem C10_signal_exit_no_error (cfg : Config) (errD : Str) (sig : Str)
    (hcb : cfg.hasEndCallback = true) :
    buildTerminalError cfg (readyState errD none (some sig)) = none ∧
    (terminateIfNeeded cfg (readyState errD none (some sig))).errorEvents = [] ∧
    (terminateIfNeeded cfg (readyState errD none (some sig))).closeEvents = 1 ∧
    (terminateIfNeeded cfg (readyState errD none (some sig))).callbackCalls =
      [(none, none, some sig)] := by
  refine ⟨rfl, ?_, ?_, ?_⟩ <;>
    simp [terminateIfNeeded, readyState, initLState, buildTerminalError, hcb]

/-- Witness for C10 at a concrete signal and non-empty stderr. -/
theorem C10_signal_exit_no_error_witness :
    (terminateIfNeeded cfg0
        (readyState (str "boom") none (some (str "SIGTERM")))).callbackCalls
      = [(none, none, some (str "SIGTERM"))] := by
  exact (C10_signal_exit_no_error cfg0 (str "boom") (str "SIGTERM") (by decide)).2.2.2
